import Mathlib

/-! Verification development for the `ska-sdp-wflow-pointing-offset`
pointing-offset pipeline.  Each definition below is a shallow embedding of a
function of the Python source (file and symbol named in its doc comment);
machine floats are modelled by exact rationals `ℚ` (or by `ℝ` where the code
uses transcendental functions), and the IEEE special values needed by the
beam-validity predicate are modelled by the extended type `PFloat`.  The
theorems settle the frozen claims C1 to C10 about this code. -/

/-! ## Section 1: array utilities (`array_data_func.py`, `freq_select.py`) -/

/-- Numpy-style boolean indexing `xs[mask]`: keep the entries of `xs` whose
mask entry is `true` (both lists read positionally, as for equal-length numpy
arrays). -/
def booleanIndex {α : Type} (xs : List α) (mask : List Bool) : List α :=
  ((xs.zip mask).filter (fun p => p.2)).map (fun p => p.1)

/-- Embedding of `array_data_func.select_channels` (lines 45-62): build the
boolean mask `(freqs > start_freq) & (freqs < end_freq)` and apply it to both
the frequency and the channel arrays. -/
def select_channels (freqs : List ℚ) (channels : List ℕ)
    (start_freq end_freq : ℚ) : List ℚ × List ℕ :=
  let mask := freqs.map (fun f => decide (start_freq < f) && decide (f < end_freq))
  (booleanIndex freqs mask, booleanIndex channels mask)

/-- Mask-length adjustment of `freq_select.apply_rfi_mask` (lines 26-38): a
mask longer than the frequency axis is truncated to it, a shorter mask is
extended with zeros (zeros mean "keep the channel"). -/
def adjustMask (mask : List ℚ) (nchan : ℕ) : List ℚ :=
  if nchan < mask.length then mask.take nchan
  else mask ++ List.replicate (nchan - mask.length) 0

/-- Embedding of `freq_select.apply_rfi_mask` (lines 13-49), reduced to its
frequency-axis action: adjust the mask length to the number of channels, then
keep exactly the channels whose mask value is zero.  Returns the retained
frequencies together with their original channel indices. -/
def applyRfiMaskFS (freqs : List ℚ) (mask : List ℚ) : List ℚ × List ℕ :=
  let m := (adjustMask mask freqs.length).map (fun v => decide (v = 0))
  (booleanIndex freqs m, booleanIndex (List.range freqs.length) m)

/-- Embedding of `array_data_func.apply_rfi_mask` (lines 26-42).  This variant
applies the mask by direct boolean indexing `freqs[rfi_mask == 0]` with no
length adjustment; numpy raises `IndexError` when the boolean mask length
differs from the array length, and only `FileNotFoundError` is caught there,
so a mismatched mask aborts (modelled as `none`). -/
def applyRfiMaskADF (freqs : List ℚ) (mask : List ℚ) : Option (List ℚ × List ℕ) :=
  if mask.length = freqs.length then
    let m := mask.map (fun v => decide (v = 0))
    some (booleanIndex freqs m, booleanIndex (List.range freqs.length) m)
  else none

/-- Embedding of `array_data_func._compute_gains` (lines 106-189), abstracted
over the external solver `solve_gaintable`: the result is the list of
half-open channel ranges `(start, end)` on which the solver is invoked, one
per returned gain table.  `numpy.arange(nchan).reshape(num_chunks, -1)`
succeeds exactly when `num_chunks` divides `nchan`, giving rows of width
`nchan / num_chunks`; on failure the code logs a warning and solves once over
all channels, and for `num_chunks <= 1` it also solves once over all
channels. -/
def compute_gains (nchan numChunks : ℕ) : List (ℕ × ℕ) :=
  if 1 < numChunks then
    if numChunks ∣ nchan then
      (List.range numChunks).map
        (fun i => (i * (nchan / numChunks), i * (nchan / numChunks) + nchan / numChunks))
    else [(0, nchan)]
  else [(0, nchan)]

/-! ## Section 2: FWHM and sigma conversions (`beam_fitting.py`) -/

/-- Embedding of `beam_fitting._fwhm_to_sigma` (lines 21-34):
`fwhm / 2.0 / numpy.sqrt(2.0 * numpy.log(2.0))`. -/
noncomputable def fwhm_to_sigma (fwhm : ℝ) : ℝ :=
  fwhm / 2 / Real.sqrt (2 * Real.log 2)

/-- Embedding of `beam_fitting._sigma_to_fwhm` (lines 37-50):
`2.0 * numpy.sqrt(2.0 * numpy.log(2.0)) * sigma`. -/
noncomputable def sigma_to_fwhm (sigma : ℝ) : ℝ :=
  2 * Real.sqrt (2 * Real.log 2) * sigma

/-! ## Section 3: beam validity predicate (`beam_fitting.BeamPatternFit.fit`)

IEEE-754 special values matter for the validity predicate (`numpy.isnan`
checks, comparisons involving `nan` and infinities), so the fitted
parameters are modelled by `PFloat`: a rational payload extended with the
two infinities and `nan`.  Rounding plays no role in the claims, and the
signs of zeros are idealised to a single zero. -/

/-- Extended float value: `nan`, the infinities, or a finite (exact
rational) value. -/
inductive PFloat where
  | nan : PFloat
  | posInf : PFloat
  | negInf : PFloat
  | fin : ℚ → PFloat
deriving DecidableEq

/-- The `numpy.isnan` test. -/
def PFloat.isNanB : PFloat → Bool
  | .nan => true
  | _ => false

/-- The `numpy.isfinite` test (true on finite values only). -/
def PFloat.isFiniteB : PFloat → Bool
  | .fin _ => true
  | _ => false

/-- IEEE `<` comparison: any comparison with `nan` is false. -/
def PFloat.ltB : PFloat → PFloat → Bool
  | .nan, _ => false
  | _, .nan => false
  | .negInf, .negInf => false
  | .negInf, .posInf => true
  | .negInf, .fin _ => true
  | .posInf, _ => false
  | .fin _, .posInf => true
  | .fin _, .negInf => false
  | .fin a, .fin b => decide (a < b)

/-- IEEE true division, with the signs of zeros idealised to `+0`:
`inf/inf` and `0/0` are `nan`, a nonzero finite value divided by zero is a
signed infinity, a finite value divided by an infinity is zero. -/
def PFloat.div : PFloat → PFloat → PFloat
  | .nan, _ => .nan
  | _, .nan => .nan
  | .posInf, .posInf => .nan
  | .posInf, .negInf => .nan
  | .negInf, .posInf => .nan
  | .negInf, .negInf => .nan
  | .posInf, .fin b => if b < 0 then .negInf else .posInf
  | .negInf, .fin b => if b < 0 then .posInf else .negInf
  | .fin _, .posInf => .fin 0
  | .fin _, .negInf => .fin 0
  | .fin a, .fin b =>
      if b = 0 then (if a = 0 then .nan else if a < 0 then .negInf else .posInf)
      else .fin (a / b)

/-- Strict order on `PFloat` as a proposition, defined independently of the
boolean comparison (`nan` is below nothing and above nothing). -/
inductive PFloat.Lt : PFloat → PFloat → Prop
  | negInf_posInf : PFloat.Lt .negInf .posInf
  | negInf_fin (a : ℚ) : PFloat.Lt .negInf (.fin a)
  | fin_posInf (a : ℚ) : PFloat.Lt (.fin a) .posInf
  | fin_fin {a b : ℚ} : a < b → PFloat.Lt (.fin a) (.fin b)

/-- Embedding of the `is_valid` computation of `BeamPatternFit.fit`
(`beam_fitting.py` lines 110-126).  The fit stores `centre`, `height`, the
fitted width `width = _sigma_to_fwhm(std)` and the expected width (both
FWHM), and the fitted standard deviation `std` with its standard error
`std_std`; then

`is_valid = not any(isnan(centre)) and height > 0.0` followed by
`is_valid &= (0.9 < width / expected_width < thresh_width) and
(std / std_std) > 0.0`.

The positive constant `2 * sqrt (2 * ln 2)` relating `width` to `std` does
not enter the predicate, so `width` is carried as its own parameter. -/
def beamIsValid (centre1 centre2 width height std std_std expected_width
    thresh_width : PFloat) : Bool :=
  ((!(centre1.isNanB || centre2.isNanB)) && PFloat.ltB (.fin 0) height)
    && ((PFloat.ltB (.fin (9/10)) (PFloat.div width expected_width)
          && PFloat.ltB (PFloat.div width expected_width) thresh_width)
        && PFloat.ltB (.fin 0) (PFloat.div std std_std))

/-- The validity predicate in the words of the claim (spec 4.3), for the
refutation: all fitted parameters (centre, width, height) finite, positive
height, width ratio strictly between `0.9` and `thresh_width`, and strictly
positive width SNR. -/
def claimBeamValid (centre1 centre2 width height std std_std expected_width
    thresh_width : PFloat) : Bool :=
  (centre1.isFiniteB && centre2.isFiniteB && width.isFiniteB && height.isFiniteB)
    && PFloat.ltB (.fin 0) height
    && (PFloat.ltB (.fin (9/10)) (PFloat.div width expected_width)
        && PFloat.ltB (PFloat.div width expected_width) thresh_width)
    && PFloat.ltB (.fin 0) (PFloat.div std std_std)

/-! ## Section 4: sub-band aggregation (`array_data_func.weighted_average`) -/

/-- One fitted beam as consumed by `weighted_average`: fitted centre and its
standard error (both 2-vectors, degrees) and the validity flag. -/
structure FittedBeam where
  centre : ℚ × ℚ
  std_centre : ℚ × ℚ
  is_valid : Bool
deriving DecidableEq

/-- The filtering `[b for b in beams_freq if b is not None and b.is_valid]`
of `weighted_average` (line 434-436). -/
def validBeams (beams : List (Option FittedBeam)) : List FittedBeam :=
  (beams.filterMap id).filter (fun b => b.is_valid)

/-- Componentwise `numpy.average(offsets, axis=0, weights=1/std**2)` of
`weighted_average` (lines 442-450): the weighted mean with weights the
inverse squared standard errors. -/
def npWeightedAverage (bs : List FittedBeam) : ℚ × ℚ :=
  ((bs.map (fun b => (1 / b.std_centre.1 ^ 2) * b.centre.1)).sum /
      (bs.map (fun b => 1 / b.std_centre.1 ^ 2)).sum,
   (bs.map (fun b => (1 / b.std_centre.2 ^ 2) * b.centre.2)).sum /
      (bs.map (fun b => 1 / b.std_centre.2 ^ 2)).sum)

/-- The inverse-variance weighted mean written as in the spec's words
(section 4.5): `(sum of mu/sigma^2) / (sum of 1/sigma^2)`, componentwise.
Used as the specification side of the refinement for C2. -/
def specSubBandMean (bs : List FittedBeam) : ℚ × ℚ :=
  ((bs.map (fun b => b.centre.1 / b.std_centre.1 ^ 2)).sum /
      (bs.map (fun b => 1 / b.std_centre.1 ^ 2)).sum,
   (bs.map (fun b => b.centre.2 / b.std_centre.2 ^ 2)).sum /
      (bs.map (fun b => 1 / b.std_centre.2 ^ 2)).sum)

/-- The multi-band branch of `weighted_average` (lines 433-450) for one
antenna: discard invalid beams; with no survivors the antenna keeps its NaN
row (modelled `none`) after a warning; otherwise return the
inverse-variance weighted centre. -/
def aggregateCentre (beams : List (Option FittedBeam)) : Option (ℚ × ℚ) :=
  let v := validBeams beams
  if v.isEmpty then none else some (npWeightedAverage v)

/-! ## Section 5: per-scan gain extraction (`ExtractPerScan.from_gains`) -/

/-- The `numpy.median` of a list of rationals: middle element of the sorted
list, or the mean of the two middle elements for even length. -/
def npMedian (l : List ℚ) : ℚ :=
  let s := l.mergeSort (fun a b => decide (a ≤ b))
  if l.length % 2 = 1 then s.getD (l.length / 2) 0
  else (s.getD (l.length / 2 - 1) 0 + s.getD (l.length / 2) 0) / 2

/-- The arithmetic mean of a list of rationals. -/
def npMean (l : List ℚ) : ℚ := l.sum / l.length

/-- The time-averaging option of `_time_avg_amp`: `None` (take the first
timestamp), `"median"`, or `"mean"`. -/
inductive TimeAvg where
  | first : TimeAvg
  | median : TimeAvg
  | mean : TimeAvg
deriving DecidableEq

/-- Embedding of `array_data_func._time_avg_amp` (lines 192-220) applied to
the per-time column of one antenna. -/
def timeAvgAmp (data : List ℚ) : TimeAvg → ℚ
  | .first => data.headD 0
  | .median => npMedian data
  | .mean => npMean data

/-- A per-chunk gain table as consumed by `from_gains`: gains and weights
indexed by (time, antenna, frequency, receptor1, receptor2).  Gains are
modelled by their real amplitudes (the code takes `numpy.abs` of the complex
gains; complex phases play no role in any claim). -/
structure GainTable where
  ntimes : ℕ
  nfreqs : ℕ
  gain : ℕ → ℕ → ℕ → ℕ → ℕ → ℚ
  weight : ℕ → ℕ → ℕ → ℕ → ℕ → ℚ

/-- The all-zero gain table, used as the out-of-range default of list
indexing. -/
def trivialGainTable : GainTable :=
  ⟨0, 0, fun _ _ _ _ _ => 0, fun _ _ _ _ _ => 0⟩

/-- The gain-amplitude reduction of one table at one (time, antenna):
`numpy.dstack((g[:,:,:,0,0], g[:,:,:,1,1])).mean(axis=2)` — the mean over
both parallel-hand diagonal entries and all frequencies of the absolute
gains. -/
def polFreqAvgGainAmp (gt : GainTable) (t a : ℕ) : ℚ :=
  (((List.range gt.nfreqs).map (fun f => |gt.gain t a f 0 0|)) ++
      ((List.range gt.nfreqs).map (fun f => |gt.gain t a f 1 1|))).sum
    / (2 * gt.nfreqs)

/-- The same reduction for the weights (no absolute value is taken on
weights in the source). -/
def polFreqAvgWeight (gt : GainTable) (t a : ℕ) : ℚ :=
  (((List.range gt.nfreqs).map (fun f => gt.weight t a f 0 0)) ++
      ((List.range gt.nfreqs).map (fun f => gt.weight t a f 1 1))).sum
    / (2 * gt.nfreqs)

/-- Per-antenna time-reduced gain amplitude of one gain table. -/
def timeReducedGainAmp (gt : GainTable) (avg : TimeAvg) (a : ℕ) : ℚ :=
  timeAvgAmp ((List.range gt.ntimes).map (fun t => polFreqAvgGainAmp gt t a)) avg

/-- Per-antenna time-reduced weight of one gain table. -/
def timeReducedWeight (gt : GainTable) (avg : TimeAvg) (a : ℕ) : ℚ :=
  timeAvgAmp ((List.range gt.ntimes).map (fun t => polFreqAvgWeight gt t a)) avg

/-- Embedding of the `num_chunks > 1` chunk loop of
`ExtractPerScan.from_gains` (`array_data_func.py` lines 341-366): the pair
`(y_per_scan[a, chunk, scan], weights_per_scan[a, chunk, scan])` stored for
one scan.  The source reads `gt_amp` from `gt_list[chunk]` but
`gt_weights` from `gt_list[0]`. -/
def fromGainsChunkEntry (gtList : List GainTable) (avg : TimeAvg)
    (chunk a : ℕ) : ℚ × ℚ :=
  let gtc := gtList.getD chunk trivialGainTable
  let gt0 := gtList.getD 0 trivialGainTable
  (timeAvgAmp ((List.range gtc.ntimes).map (fun t => polFreqAvgGainAmp gtc t a)) avg,
   timeAvgAmp ((List.range gt0.ntimes).map (fun t => polFreqAvgWeight gt0 t a)) avg)

/-! ## Section 6: pointing interpolation (`array_data_func.interp_timestamps`) -/

/-- The shape guard of `interp_timestamps` (line 76): the offset array must
be 3-dimensional with a last axis of length 2.  In the list model the guard
is that every innermost (az, el) entry has length 2. -/
def hasPointingShape (data : List (List (List ℚ))) : Bool :=
  data.all (fun row => row.all (fun p => p.length = 2))

/-- The `numpy.argsort` of a time axis: the index permutation that sorts the
timestamps (ties are resolved stably here; the claims do not depend on tie
order). -/
def argsortPerm (times : List ℚ) : List ℕ :=
  (List.range times.length).mergeSort
    (fun i j => decide (times.getD i 0 ≤ times.getD j 0))

/-- Embedding of `array_data_func.interp_timestamps` (lines 65-103).  On a
malformed shape it logs a warning and returns the input unchanged.
Otherwise `numpy.array([origin_times, new_times]).T` requires the two time
axes to have equal length (a ragged pair aborts, modelled `none`); the
`NearestNDInterpolator` objects are built but only their stored `.values`
attribute — the input data itself, time-sorted — is read back, so the
result is the origin data with the time axis sorted by origin timestamp. -/
def interp_timestamps (data : List (List (List ℚ))) (originTimes newTimes : List ℚ) :
    Option (List (List (List ℚ))) :=
  if hasPointingShape data = false then some data
  else if originTimes.length ≠ newTimes.length then none
  else some ((argsortPerm originTimes).map (fun i => data.getD i []))

/-! ## Section 7: offset rows (`weighted_average` tail and
`pointing_offset_cli.compute_offset`) -/

/-- Degrees to radians, `numpy.radians`. -/
noncomputable def radiansR (d : ℝ) : ℝ := d * (Real.pi / 180)

/-- Radians to degrees, `numpy.degrees`. -/
noncomputable def degreesR (r : ℝ) : ℝ := r * (180 / Real.pi)

/-- The katpoint `wrap_angle` with the default period `2 * pi`:
`(angle + pi) % (2 * pi) - pi`, with the Python modulo written out via the
floor function. -/
noncomputable def wrap_angle (a : ℝ) : ℝ :=
  (a + Real.pi) - 2 * Real.pi * ⌊(a + Real.pi) / (2 * Real.pi)⌋ - Real.pi

/-- Embedding of the per-antenna tail of `weighted_average`
(`array_data_func.py` lines 460-474) for an antenna with a valid aggregated
centre: `p` is the aggregated pointing offset in degrees, `azel` the
katpoint `target.azel` closure for this antenna (timestamp to (az, el) in
radians, computed by katpoint from the target's RA/Dec and the antenna's
location), `ts` the pointing timestamps.  Returns the output row
`(az, el, cross-el)` in arcminutes. -/
noncomputable def weightedAverageRow (p : ℝ × ℝ) (azel : ℚ → ℝ × ℝ)
    (ts : List ℚ) : ℝ × ℝ × ℝ :=
  let pw := (wrap_angle (radiansR p.1), wrap_angle (radiansR p.2))
  let ta := azel (npMedian ts)
  let taDeg := (degreesR (wrap_angle ta.1), degreesR (wrap_angle ta.2))
  let xel := pw.1 * Real.cos (radiansR taDeg.2)
  (degreesR pw.1 * 60, degreesR pw.2 * 60, degreesR xel * 60)

/-- Embedding of the cross-elevation computation of
`pointing_offset_cli.compute_offset` (lines 246-258): `az` and `el` are the
entries of `azel_offset` in degrees, `targetElDeg` the target elevation in
degrees, and the code computes
`cross_el = azel_offset[:, 0] * numpy.degrees(numpy.cos(numpy.radians(target_el)))`
before scaling all three columns by 60 into arcminutes. -/
noncomputable def cliOffsetRow (az el targetElDeg : ℝ) : ℝ × ℝ × ℝ :=
  let cross := az * degreesR (Real.cos (radiansR targetElDeg))
  (az * 60, el * 60, cross * 60)

/-! ## Section 8: theorems -/

lemma sqrt_two_log_two_pos : 0 < Real.sqrt (2 * Real.log 2) := by
  have hl : 0 < Real.log 2 := Real.log_pos (by norm_num)
  exact Real.sqrt_pos.mpr (by linarith)

/-- C8: composing the FWHM-to-sigma conversion with the sigma-to-FWHM
conversion is the identity on every real value, with the conversion given by
`sigma = FWHM / (2 * sqrt (2 * ln 2))`. -/
theorem sigma_to_fwhm_fwhm_to_sigma (x : ℝ) :
    sigma_to_fwhm (fwhm_to_sigma x) = x := by
  have hs : Real.sqrt (2 * Real.log 2) ≠ 0 := ne_of_gt sqrt_two_log_two_pos
  unfold sigma_to_fwhm fwhm_to_sigma
  field_simp

/-! ## Auxiliary lemmas on boolean indexing -/

lemma booleanIndex_nil_mask {α : Type} (xs : List α) :
    booleanIndex xs [] = [] := by
  simp [booleanIndex]

lemma booleanIndex_cons {α : Type} (x : α) (xs : List α) (b : Bool) (mask : List Bool) :
    booleanIndex (x :: xs) (b :: mask) =
      if b then x :: booleanIndex xs mask else booleanIndex xs mask := by
  cases b <;> simp [booleanIndex]

lemma select_channels_zip (freqs : List ℚ) (channels : List ℕ)
    (start_freq end_freq : ℚ) (hlen : freqs.length = channels.length) :
    ((select_channels freqs channels start_freq end_freq).1).zip
        ((select_channels freqs channels start_freq end_freq).2) =
      (freqs.zip channels).filter
        (fun p => decide (start_freq < p.1) && decide (p.1 < end_freq)) := by
  induction freqs generalizing channels with
  | nil =>
      simp [select_channels, booleanIndex]
  | cons f fs ih =>
      cases channels with
      | nil => simp at hlen
      | cons c cs =>
          have h : fs.length = cs.length := by simpa using hlen
          have hzip := ih cs h
          simp only [select_channels, List.map_cons, List.zip_cons_cons,
            List.filter_cons] at hzip ⊢
          by_cases hf : start_freq < f ∧ f < end_freq
          · have hb : (decide (start_freq < f) && decide (f < end_freq)) = true := by
              simp [hf.1, hf.2]
            simp only [booleanIndex_cons, hb, if_true, List.zip_cons_cons]
            simpa [hb] using congrArg (List.cons (f, c)) hzip
          · have hb : (decide (start_freq < f) && decide (f < end_freq)) = false := by
              rcases not_and_or.mp hf with h1 | h1 <;> simp [h1]
            simp only [booleanIndex_cons, hb, if_false]
            simpa [hb] using hzip

/-- C6: `select_channels` returns exactly the frequency/channel pairs whose
frequency lies strictly between the two bounds: pairing the returned
frequency list with the returned channel list gives precisely the filtered
input pairing. -/
theorem select_channels_spec (freqs : List ℚ) (channels : List ℕ)
    (start_freq end_freq : ℚ) (_hb : start_freq < end_freq)
    (hlen : freqs.length = channels.length) :
    ((select_channels freqs channels start_freq end_freq).1).zip
        ((select_channels freqs channels start_freq end_freq).2) =
      (freqs.zip channels).filter
        (fun p => decide (start_freq < p.1) && decide (p.1 < end_freq)) :=
  select_channels_zip freqs channels start_freq end_freq hlen

/-- C6 witness: the literal S6 scenario, frequencies
`[1.0, 1.5, 2.0, 2.5, 3.0]e8` with bounds `(1.8e8, 2.8e8)`, keeps exactly
channels 2 and 3 with frequencies `2.0e8` and `2.5e8`. -/
theorem select_channels_spec_witness :
    (180000000 : ℚ) < 280000000 ∧
      ((select_channels [100000000, 150000000, 200000000, 250000000, 300000000]
            [0, 1, 2, 3, 4] 180000000 280000000).1).zip
          ((select_channels [100000000, 150000000, 200000000, 250000000, 300000000]
            [0, 1, 2, 3, 4] 180000000 280000000).2) =
        [(200000000, 2), (250000000, 3)] := by
  refine ⟨by norm_num, ?_⟩
  rw [select_channels_spec _ _ _ _ (by norm_num) (by decide)]
  decide

lemma adjustMask_length (mask : List ℚ) (nchan : ℕ) :
    (adjustMask mask nchan).length = nchan := by
  unfold adjustMask
  split
  · simpa using le_of_lt (by assumption)
  · simp; omega

lemma mem_booleanIndex_range (n : ℕ) (bs : List Bool) (hbs : bs.length = n) (i : ℕ) :
    i ∈ booleanIndex (List.range n) bs ↔ bs[i]? = some true := by
  unfold booleanIndex
  have hzip : (List.range n).zip bs = bs.enum := by
    rw [List.enum_eq_zip_range, hbs]
  rw [hzip]
  constructor
  · intro h
    obtain ⟨p, hp, hfst⟩ := List.mem_map.mp h
    obtain ⟨hpz, hp2⟩ := List.mem_filter.mp hp
    have hp2' : p.2 = true := by simpa using hp2
    have : (p.1, p.2) ∈ bs.enum := by simpa using hpz
    rw [List.mk_mem_enum_iff_getElem?] at this
    rw [← hfst, ← hp2']
    exact this
  · intro h
    refine List.mem_map.mpr ⟨(i, true), List.mem_filter.mpr ⟨?_, by simp⟩, rfl⟩
    exact List.mk_mem_enum_iff_getElem?.mpr h

lemma adjustMask_getElem_zero (mask : List ℚ) (n i : ℕ) (hi : i < n) :
    ((adjustMask mask n)[i]? = some 0) ↔
      (mask.length ≤ i ∨ mask.getD i 1 = 0) := by
  unfold adjustMask
  split
  · rename_i hlen
    have him : i < mask.length := lt_trans hi hlen
    rw [List.getElem?_take, if_pos hi, List.getElem?_eq_getElem him,
      List.getD_eq_getElem _ _ him]
    constructor
    · intro h; exact Or.inr (by simpa using h)
    · rintro (h | h)
      · omega
      · simpa using h
  · rename_i hlen
    by_cases him : i < mask.length
    · rw [List.getElem?_append_left him, List.getElem?_eq_getElem him,
        List.getD_eq_getElem _ _ him]
      constructor
      · intro h; exact Or.inr (by simpa using h)
      · rintro (h | h)
        · omega
        · simpa using h
    · have him' : mask.length ≤ i := by omega
      rw [List.getElem?_append_right him']
      have hrep : i - mask.length < n - mask.length := by omega
      rw [List.getElem?_eq_getElem (by simpa using hrep)]
      simp [List.getElem_replicate, him']

/-- C5 (amended): `freq_select.apply_rfi_mask` pads a short mask with zeros
(so channels beyond the mask length are kept) and truncates a long mask to
the frequency length: channel `i` is retained exactly when `i` is a valid
channel and either the mask does not cover `i` or the mask value at `i` is
zero.  In particular, for 5 frequencies and mask `[1,1,0]`, channels 2, 3, 4
are retained. -/
theorem applyRfiMask_spec :
    (∀ (freqs mask : List ℚ) (i : ℕ),
        i ∈ (applyRfiMaskFS freqs mask).2 ↔
          (i < freqs.length ∧ (mask.length ≤ i ∨ mask.getD i 1 = 0))) ∧
      applyRfiMaskFS [10, 20, 30, 40, 50] [1, 1, 0] = ([30, 40, 50], [2, 3, 4]) := by
  constructor
  · intro freqs mask i
    set n := freqs.length with hn
    have hmlen : ((adjustMask mask n).map (fun v => decide (v = 0))).length = n := by
      simp [adjustMask_length]
    rw [show (applyRfiMaskFS freqs mask).2 =
        booleanIndex (List.range n) ((adjustMask mask n).map (fun v => decide (v = 0)))
      from rfl]
    rw [mem_booleanIndex_range n _ hmlen i]
    rw [List.getElem?_map]
    constructor
    · intro h
      have hlt : i < (adjustMask mask n).length := by
        by_contra hge
        rw [List.getElem?_eq_none_iff.mpr (by omega)] at h
        simp at h
      have hlt' : i < n := by rwa [adjustMask_length] at hlt
      refine ⟨hlt', ?_⟩
      rw [List.getElem?_eq_getElem hlt] at h
      have hv : (adjustMask mask n)[i] = 0 := by
        have := Option.some.inj (by simpa using h)
        simpa using this
      exact (adjustMask_getElem_zero mask n i hlt').mp
        (by rw [List.getElem?_eq_getElem hlt, hv])
    · rintro ⟨hlt', hmask⟩
      have h0 : (adjustMask mask n)[i]? = some 0 :=
        (adjustMask_getElem_zero mask n i hlt').mpr hmask
      rw [h0]
      simp
  · decide

/-- C5 counterexample: the `array_data_func.apply_rfi_mask` variant does not
zero-pad a short mask; with 5 frequencies and mask `[1,1,0]` its boolean
indexing aborts (`IndexError`), so it does not return the claimed channels
2, 3, 4. -/
theorem applyRfiMaskADF_mismatch :
    applyRfiMaskADF [10, 20, 30, 40, 50] [1, 1, 0] = none ∧
      applyRfiMaskADF [10, 20, 30, 40, 50] [1, 1, 0] ≠
        some ([30, 40, 50], [2, 3, 4]) := by
  constructor <;> decide

/-- C7: the gain-calibration wrapper solves once over all channels when
`num_chunks = 1`; when `num_chunks > 1` divides the channel count it solves
independently on `num_chunks` equal-width contiguous channel ranges, chunk
`i` covering `[i * (nchan / num_chunks), (i+1) * (nchan / num_chunks))`, one
gain table per chunk; when the channel count is not divisible it falls back
to a single solve over all channels (after logging a warning). -/
theorem compute_gains_spec (nchan numChunks : ℕ) :
    (numChunks = 1 → compute_gains nchan numChunks = [(0, nchan)]) ∧
    (1 < numChunks → numChunks ∣ nchan →
      (compute_gains nchan numChunks).length = numChunks ∧
      ∀ i, i < numChunks →
        (compute_gains nchan numChunks).getD i (0, 0) =
          (i * (nchan / numChunks), (i + 1) * (nchan / numChunks))) ∧
    (1 < numChunks → ¬ numChunks ∣ nchan →
      compute_gains nchan numChunks = [(0, nchan)]) := by
  refine ⟨?_, ?_, ?_⟩
  · intro h1; simp [compute_gains, h1]
  · intro hgt hdvd
    have hif : compute_gains nchan numChunks =
        (List.range numChunks).map
          (fun i => (i * (nchan / numChunks), i * (nchan / numChunks) + nchan / numChunks)) := by
      simp [compute_gains, hgt, hdvd]
    constructor
    · simp [hif]
    · intro i hi
      rw [hif, List.getD_eq_getElem _ _ (by simpa using hi)]
      simp only [List.getElem_map, List.getElem_range]
      ring_nf
  · intro hgt hndvd
    simp [compute_gains, hgt, hndvd]

/-- C7 witness: with 8 channels and 2 chunks the wrapper produces two gain
tables on the contiguous equal ranges `[0,4)` and `[4,8)`, while 3 chunks on
8 channels fall back to one solve over all channels. -/
theorem compute_gains_spec_witness :
    ((1 : ℕ) < 2 ∧ (2 : ℕ) ∣ 8 ∧
      (compute_gains 8 2).length = 2 ∧
      (compute_gains 8 2).getD 1 (0, 0) = (4, 8)) ∧
    ((1 : ℕ) < 3 ∧ ¬ (3 : ℕ) ∣ 8 ∧ compute_gains 8 3 = [(0, 8)]) := by
  constructor
  · refine ⟨by norm_num, by norm_num, ?_, ?_⟩
    · exact ((compute_gains_spec 8 2).2.1 (by norm_num) (by norm_num)).1
    · have h := ((compute_gains_spec 8 2).2.1 (by norm_num) (by norm_num)).2 1 (by norm_num)
      simpa using h
  · exact ⟨by norm_num, by decide, (compute_gains_spec 8 3).2.2 (by norm_num) (by decide)⟩

lemma PFloat.lt_iff_ltB (x y : PFloat) : PFloat.Lt x y ↔ PFloat.ltB x y = true := by
  constructor
  · intro h
    cases h <;> simp [PFloat.ltB, *]
  · intro h
    cases x <;> cases y <;> simp [PFloat.ltB] at h
    · exact PFloat.Lt.negInf_posInf
    · exact PFloat.Lt.negInf_fin _
    · exact PFloat.Lt.fin_posInf _
    · exact PFloat.Lt.fin_fin h

lemma PFloat.isNanB_eq_false_iff (x : PFloat) : x.isNanB = false ↔ x ≠ PFloat.nan := by
  cases x <;> simp [PFloat.isNanB]

/-- C1 (amended): after `BeamPatternFit.fit`, the beam's `is_valid` flag is
true iff neither centre component is NaN, the fitted height is strictly
positive, the ratio of fitted to expected width lies strictly between 0.9
and `thresh_width`, and the width SNR `std / std_std` is strictly positive,
all under IEEE comparison semantics (a NaN or infinite width already fails
the ratio clause, but an infinite centre component or height does not by
itself invalidate the fit — the code only tests the centre with
`numpy.isnan`, not for finiteness). -/
theorem beamIsValid_iff (c1 c2 w h s ss we tw : PFloat) :
    beamIsValid c1 c2 w h s ss we tw = true ↔
      (c1 ≠ PFloat.nan ∧ c2 ≠ PFloat.nan ∧ PFloat.Lt (.fin 0) h ∧
        PFloat.Lt (.fin (9/10)) (PFloat.div w we) ∧
        PFloat.Lt (PFloat.div w we) tw ∧
        PFloat.Lt (.fin 0) (PFloat.div s ss)) := by
  unfold beamIsValid
  simp only [Bool.and_eq_true, Bool.not_eq_true', Bool.or_eq_false_iff,
    PFloat.isNanB_eq_false_iff, PFloat.lt_iff_ltB]
  tauto

/-- C1 counterexample: with fitted centre `(+inf, 0)`, fitted width 1,
height 1, std 1, std error 1, expected width 1 and threshold 3/2, the code
sets `is_valid = true` although the first centre component is not finite,
so the claimed validity predicate (clause "all fitted parameters finite")
does not coincide with the code's flag. -/
theorem beamIsValid_ne_claim :
    beamIsValid PFloat.posInf (.fin 0) (.fin 1) (.fin 1) (.fin 1) (.fin 1)
        (.fin 1) (.fin (3/2)) = true ∧
      claimBeamValid PFloat.posInf (.fin 0) (.fin 1) (.fin 1) (.fin 1) (.fin 1)
        (.fin 1) (.fin (3/2)) = false := by
  constructor
  · unfold beamIsValid
    norm_num [PFloat.isNanB, PFloat.ltB, PFloat.div]
  · unfold claimBeamValid
    simp [PFloat.isFiniteB]

/-- C2: the sub-band aggregator drops invalid (or absent) per-band beams;
with no valid beam left the antenna's entry stays NaN (modelled `none`,
after a logged warning), and otherwise the reported centre is the
inverse-variance weighted mean of the valid per-band centres, componentwise
with weights `1 / std_centre^2`, exactly the spec's formula
`(sum mu/sigma^2) / (sum 1/sigma^2)`. -/
theorem weighted_average_subband (beams : List (Option FittedBeam)) :
    (validBeams beams = [] → aggregateCentre beams = none) ∧
    (validBeams beams ≠ [] →
      aggregateCentre beams = some (specSubBandMean (validBeams beams))) := by
  constructor
  · intro h
    simp [aggregateCentre, h]
  · intro h
    have hne : (validBeams beams).isEmpty = false := by
      simpa [List.isEmpty_iff] using h
    simp only [aggregateCentre, hne, Bool.false_eq_true, if_false]
    congr 1
    unfold npWeightedAverage specSubBandMean
    have h1 : ∀ (b : FittedBeam),
        (1 / b.std_centre.1 ^ 2) * b.centre.1 = b.centre.1 / b.std_centre.1 ^ 2 :=
      fun b => one_div_mul_eq_div _ _
    have h2 : ∀ (b : FittedBeam),
        (1 / b.std_centre.2 ^ 2) * b.centre.2 = b.centre.2 / b.std_centre.2 ^ 2 :=
      fun b => one_div_mul_eq_div _ _
    simp only [h1, h2]

/-- C2 witness: the S4 scenario.  Bands with centres `(0.1, 0.1)` at std
`0.01` and `(0.12, 0.1)` at std `0.03` (plus an absent and an invalid band,
both discarded) aggregate to `(0.102, 0.1)` (exactly `51/500`). -/
theorem weighted_average_subband_witness :
    validBeams [some ⟨(1/10, 1/10), (1/100, 1/100), true⟩, none,
        some ⟨(5, 5), (1, 1), false⟩,
        some ⟨(3/25, 1/10), (3/100, 3/100), true⟩] ≠ [] ∧
      aggregateCentre [some ⟨(1/10, 1/10), (1/100, 1/100), true⟩, none,
        some ⟨(5, 5), (1, 1), false⟩,
        some ⟨(3/25, 1/10), (3/100, 3/100), true⟩] = some (51/500, 1/10) := by
  refine ⟨by decide, ?_⟩
  rw [(weighted_average_subband _).2 (by decide)]
  norm_num [specSubBandMean, validBeams, List.filterMap_cons, List.filter_cons]

/-- C9: in the multi-chunk branch of `ExtractPerScan.from_gains`, the gain
amplitude stored for chunk `c` is the time-reduced amplitude of chunk `c`'s
own gain table, but the stored weights are the time-reduced weights of the
first chunk's table `gt_list[0]` for every chunk — and this is not
equivalent to taking each chunk's own weights (final conjunct). -/
theorem from_gains_weights_from_first (gtList : List GainTable) (avg : TimeAvg)
    (chunk a : ℕ) :
    ((fromGainsChunkEntry gtList avg chunk a).1 =
        timeReducedGainAmp (gtList.getD chunk trivialGainTable) avg a ∧
      (fromGainsChunkEntry gtList avg chunk a).2 =
        timeReducedWeight (gtList.getD 0 trivialGainTable) avg a) ∧
    ¬ ∀ (l : List GainTable) (c b : ℕ),
        (fromGainsChunkEntry l TimeAvg.first c b).2 =
          timeReducedWeight (l.getD c trivialGainTable) TimeAvg.first b := by
  refine ⟨⟨rfl, rfl⟩, ?_⟩
  intro hall
  have h := hall [⟨1, 1, fun _ _ _ _ _ => 1, fun _ _ _ _ _ => 1⟩,
      ⟨1, 1, fun _ _ _ _ _ => 1, fun _ _ _ _ _ => 2⟩] 1 0
  have hL : (fromGainsChunkEntry [⟨1, 1, fun _ _ _ _ _ => 1, fun _ _ _ _ _ => 1⟩,
      ⟨1, 1, fun _ _ _ _ _ => 1, fun _ _ _ _ _ => 2⟩] TimeAvg.first 1 0).2 = 1 := by
    norm_num [fromGainsChunkEntry, timeAvgAmp, polFreqAvgWeight, trivialGainTable,
      List.range_succ, List.getD_cons_zero, List.getD_cons_succ]
  have hR : timeReducedWeight (([⟨1, 1, fun _ _ _ _ _ => 1, fun _ _ _ _ _ => 1⟩,
      ⟨1, 1, fun _ _ _ _ _ => 1, fun _ _ _ _ _ => 2⟩] :
        List GainTable).getD 1 trivialGainTable) TimeAvg.first 0 = 2 := by
    norm_num [timeReducedWeight, timeAvgAmp, polFreqAvgWeight, trivialGainTable,
      List.range_succ, List.getD_cons_zero, List.getD_cons_succ]
  rw [hL, hR] at h
  norm_num at h

lemma map_getD_range {α : Type} (l : List α) (d : α) :
    (List.range l.length).map (fun i => l.getD i d) = l := by
  apply List.ext_getElem
  · simp
  · intro i h1 h2
    simp only [List.getElem_map, List.getElem_range]
    exact List.getD_eq_getElem _ _ h2

/-- C10: `interp_timestamps` returns a malformed-shape input unchanged
(after a warning); it only succeeds when the origin and new time axes have
equal length (the ragged `numpy.array([origin_times, new_times])` aborts
otherwise); the values of the new timestamps never influence the result;
and on success the output is exactly the origin data reordered by the
permutation that sorts the origin timestamps (so, per antenna, the original
az/el columns sorted by origin timestamp). -/
theorem interp_timestamps_spec :
    (∀ (data : List (List (List ℚ))) (ot nt : List ℚ),
        hasPointingShape data = false → interp_timestamps data ot nt = some data) ∧
    (∀ (data : List (List (List ℚ))) (ot nt : List ℚ),
        hasPointingShape data = true → ot.length ≠ nt.length →
        interp_timestamps data ot nt = none) ∧
    (∀ (data : List (List (List ℚ))) (ot nt nt' : List ℚ),
        ot.length = nt.length → ot.length = nt'.length →
        interp_timestamps data ot nt = interp_timestamps data ot nt') ∧
    (∀ (data : List (List (List ℚ))) (ot nt : List ℚ),
        hasPointingShape data = true → ot.length = nt.length →
        data.length = ot.length →
        interp_timestamps data ot nt =
          some ((argsortPerm ot).map (fun i => data.getD i [])) ∧
        ((argsortPerm ot).map (fun i => data.getD i [])).Perm data ∧
        List.Sorted (· ≤ ·) ((argsortPerm ot).map (fun i => ot.getD i 0))) := by
  refine ⟨?_, ?_, ?_, ?_⟩
  · intro data ot nt h
    simp [interp_timestamps, h]
  · intro data ot nt hs hlen
    simp [interp_timestamps, hs, hlen]
  · intro data ot nt nt' h1 h2
    unfold interp_timestamps
    rw [← h1, ← h2]
  · intro data ot nt hs hlen hdata
    refine ⟨by simp [interp_timestamps, hs, hlen], ?_, ?_⟩
    · have hperm : (argsortPerm ot).Perm (List.range ot.length) :=
        List.mergeSort_perm _ _
      have hmap := hperm.map (fun i => data.getD i ([] : List (List ℚ)))
      rw [← hdata] at hmap
      rw [map_getD_range data ([] : List (List ℚ))] at hmap
      exact hmap
    · have hsorted := @List.sorted_mergeSort ℕ
        (fun i j => decide (ot.getD i 0 ≤ ot.getD j 0))
        (fun a b c hab hbc => by
          simp only [decide_eq_true_eq] at hab hbc ⊢
          exact le_trans hab hbc)
        (fun a b => by
          simp only [Bool.or_eq_true, decide_eq_true_eq]
          exact le_total _ _)
        (List.range ot.length)
      exact List.Pairwise.map _ (fun a b hab => by
        simpa using hab) hsorted

lemma radiansR_degreesR (x : ℝ) : radiansR (degreesR x) = x := by
  unfold radiansR degreesR
  have hπ : Real.pi ≠ 0 := Real.pi_ne_zero
  field_simp

lemma cos_wrap_angle (a : ℝ) : Real.cos (wrap_angle a) = Real.cos a := by
  unfold wrap_angle
  have h : (a + Real.pi) - 2 * Real.pi * ⌊(a + Real.pi) / (2 * Real.pi)⌋ - Real.pi
      = a - (⌊(a + Real.pi) / (2 * Real.pi)⌋ : ℤ) * (2 * Real.pi) := by
    ring
  rw [h, Real.cos_sub_int_mul_two_pi]

/-- C3: for an antenna with a valid aggregated centre, the cross-elevation
column of the output row equals the azimuth column times the cosine of the
calibrator elevation (in radians) returned by the katpoint `azel` call at
the median pointing timestamp for that antenna; degree-to-arcminute scaling
(times 60) is applied uniformly to all columns. -/
theorem weighted_average_cross_el (p : ℝ × ℝ) (azel : ℚ → ℝ × ℝ) (ts : List ℚ) :
    (weightedAverageRow p azel ts).2.2 =
      (weightedAverageRow p azel ts).1 * Real.cos ((azel (npMedian ts)).2) := by
  unfold weightedAverageRow
  simp only
  rw [radiansR_degreesR, cos_wrap_angle]
  unfold degreesR
  ring

/-- Bound satisfied by the `weighted_average` output path: its
cross-elevation column never exceeds its azimuth column in absolute value,
because the azimuth offset is scaled by a genuine cosine. -/
lemma weightedAverageRow_cross_el_le (p : ℝ × ℝ) (azel : ℚ → ℝ × ℝ) (ts : List ℚ) :
    |(weightedAverageRow p azel ts).2.2| ≤ |(weightedAverageRow p azel ts).1| := by
  unfold weightedAverageRow degreesR
  simp only
  set pw1 := wrap_angle (radiansR p.1)
  set c := Real.cos (radiansR ((azel (npMedian ts)).2 |> wrap_angle |> degreesR))
  have hc : |c| ≤ 1 := Real.abs_cos_le_one _
  have h : |pw1 * c * (180 / Real.pi) * 60| = |pw1 * (180 / Real.pi) * 60| * |c| := by
    rw [← abs_mul]
    ring_nf
  calc |pw1 * c * (180 / Real.pi) * 60|
      = |pw1 * (180 / Real.pi) * 60| * |c| := h
    _ ≤ |pw1 * (180 / Real.pi) * 60| * 1 :=
        mul_le_mul_of_nonneg_left hc (abs_nonneg _)
    _ = |pw1 * (180 / Real.pi) * 60| := mul_one _

/-- C4 (code bug): the CLI output path `compute_offset` multiplies the
azimuth offset by `numpy.degrees(numpy.cos(...))`, i.e. by
`(180/pi) * cos(el)`, so at azimuth offset 1 degree and target elevation 0
the emitted cross-elevation column exceeds the azimuth column in absolute
value, violating the claimed bound (which the `weighted_average` path does
satisfy, see `weightedAverageRow_cross_el_le`). -/
theorem cli_cross_el_exceeds_az :
    |(cliOffsetRow 1 0 0).2.2| > |(cliOffsetRow 1 0 0).1| := by
  unfold cliOffsetRow radiansR degreesR
  simp only [zero_mul, Real.cos_zero, one_mul]
  have hπ : 0 < Real.pi := Real.pi_pos
  have h1 : (1 : ℝ) < 180 / Real.pi := by
    rw [lt_div_iff₀ hπ]
    nlinarith [Real.pi_lt_d2]
  have h2 : (0 : ℝ) < 180 / Real.pi := by positivity
  rw [abs_of_pos (by positivity), abs_of_pos (by norm_num)]
  nlinarith

/-- C10 witness: two pointing rows `[[1,2]]` and `[[3,4]]` at origin times
`[5, 3]` with (irrelevant) new times `[7, 8]` pass the shape guard, the
length sides match, and the result is the two rows swapped into origin-time
order, independent of the new time values. -/
theorem interp_timestamps_spec_witness :
    hasPointingShape [[[(1 : ℚ), 2]], [[3, 4]]] = true ∧
      ([(5 : ℚ), 3].length = [(7 : ℚ), 8].length) ∧
      interp_timestamps [[[(1 : ℚ), 2]], [[3, 4]]] [5, 3] [7, 8] =
        some [[[3, 4]], [[1, 2]]] := by
  have h := interp_timestamps_spec.2.2.2 [[[(1 : ℚ), 2]], [[3, 4]]] [5, 3] [7, 8]
    (by decide) (by decide) (by decide)
  refine ⟨by decide, by decide, ?_⟩
  rw [h.1]
  norm_num [argsortPerm, List.mergeSort, List.range_succ, List.getD_cons_zero,
    List.getD_cons_succ]
